import Mathlib

/-!
Shallow embedding of the raalisence license server core
(github.com/rpattn/raalisence), covering:

* admin authentication (`internal/config/config.go` `AdminKeyOK`,
  `internal/middleware` `WithAdminKey`),
* the admin-auth failure tracker (`failureTracker` in the middleware package),
* the token-bucket rate limiter (`internal/middleware/ratelimit.go`),
* the license handlers (`internal/handlers/lisence.go`): issue, revoke,
  heartbeat, update, validate, list, and the shared helpers
  `decodeJSON` / `internalError` / `writeJSON`.

Machine integers and byte strings are modelled as `Nat` / `List Nat`;
timestamps as `Nat` nanoseconds; Go `float64` bucket arithmetic as `ℚ`;
fallible operations as `Except`.
-/

namespace Raalisence

/-- Byte strings (Go `[]byte` / `string`): lists of byte values. -/
abbrev Bytes := List Nat

/-- The `Server` section of `config.Config` (config.go): the plaintext
admin key `AdminAPIKey` and the bcrypt hash list `AdminAPIKeyHashes`,
both as byte strings. -/
structure ServerConfig where
  adminAPIKey : Bytes
  adminAPIKeyHashes : List Bytes
deriving DecidableEq

/-- The constant-time comparison loop of `AdminKeyOK` (config.go):
`match |= int(wantBytes[i] ^ gotBytes[i])` over all indices, starting
from `match = 0`.  Returns the accumulated OR of byte XORs. -/
def ctMatch (want got : Bytes) : Nat :=
  (List.zipWith Nat.xor want got).foldl Nat.lor 0

/-- `Config.AdminKeyOK` (config.go): if any bcrypt hashes are configured,
the token must match one of them (empty hash entries are skipped);
otherwise the token is compared to the plaintext `AdminAPIKey` — empty
configured key always fails, then length check, then the OR-of-XOR
accumulator must be zero.  The bcrypt comparison
(`bcrypt.CompareHashAndPassword`, an external library call) is passed in
as the function `bcryptOK hash password`. -/
def adminKeyOK (bcryptOK : Bytes → Bytes → Bool) (cfg : ServerConfig)
    (got : Bytes) : Bool :=
  if 0 < cfg.adminAPIKeyHashes.length then
    cfg.adminAPIKeyHashes.any (fun h => !h.isEmpty && bcryptOK h got)
  else
    let want := cfg.adminAPIKey
    if want.isEmpty then false
    else if got.length ≠ want.length then false
    else ctMatch want got == 0

/-- The bytes of the string `"Bearer "` (the `pfx` constant of
`WithAdminKey`). -/
def bearerPfx : Bytes := [66, 101, 97, 114, 101, 114, 32]

/-- The bytes of the string `"BearerX"` (a header missing the separating
space, used by the spec as a must-reject example). -/
def bearerXBytes : Bytes := [66, 101, 97, 114, 101, 114, 88]

/-- The authorization decision of `WithAdminKey` (middleware): the
`Authorization` header must start with the exact prefix `"Bearer "`
(`strings.HasPrefix`), and the remainder of the header is the token
passed to `AdminKeyOK`. -/
def withAdminKeyAuthorized (bcryptOK : Bytes → Bytes → Bool)
    (cfg : ServerConfig) (authHeader : Bytes) : Bool :=
  if bearerPfx.isPrefixOf authHeader then
    adminKeyOK bcryptOK cfg (authHeader.drop bearerPfx.length)
  else false

theorem lor_eq_zero (a b : Nat) : Nat.lor a b = 0 ↔ a = 0 ∧ b = 0 := by
  constructor
  · intro h
    have h' : a ||| b = 0 := h
    have hb : ∀ i, (Nat.testBit a i || Nat.testBit b i) = false := by
      intro i
      have := congrArg (fun n => Nat.testBit n i) h'
      simpa [Nat.testBit_lor, Nat.zero_testBit] using this
    constructor
    · apply Nat.eq_of_testBit_eq
      intro i
      have := hb i
      simp only [Bool.or_eq_false_iff] at this
      simp [this.1, Nat.zero_testBit]
    · apply Nat.eq_of_testBit_eq
      intro i
      have := hb i
      simp only [Bool.or_eq_false_iff] at this
      simp [this.2, Nat.zero_testBit]
  · rintro ⟨ha, hb⟩
    subst ha; subst hb; decide

theorem foldl_lor_eq_zero (l : List Nat) :
    ∀ a : Nat, (l.foldl Nat.lor a = 0 ↔ a = 0 ∧ ∀ x ∈ l, x = 0) := by
  induction l with
  | nil => intro a; simp
  | cons x xs ih =>
    intro a
    rw [List.foldl_cons, ih (Nat.lor a x), lor_eq_zero]
    constructor
    · rintro ⟨⟨ha, hx⟩, hxs⟩
      refine ⟨ha, fun y hy => ?_⟩
      rcases List.mem_cons.mp hy with h | h
      · exact h ▸ hx
      · exact hxs y h
    · rintro ⟨ha, hall⟩
      exact ⟨⟨ha, hall x (List.mem_cons_self x xs)⟩,
        fun y hy => hall y (List.mem_cons_of_mem x hy)⟩

theorem natXor_eq_zero (a b : Nat) : Nat.xor a b = 0 ↔ a = b :=
  show a ^^^ b = 0 ↔ a = b from Nat.xor_eq_zero

theorem ctMatch_eq_zero (want got : Bytes) (hlen : want.length = got.length) :
    ctMatch want got = 0 ↔ want = got := by
  unfold ctMatch
  rw [foldl_lor_eq_zero]
  simp only [true_and]
  induction want generalizing got with
  | nil =>
    cases got with
    | nil => simp
    | cons g gs => simp at hlen
  | cons w ws ih =>
    cases got with
    | nil => simp at hlen
    | cons g gs =>
      simp only [List.length_cons, Nat.succ.injEq] at hlen
      simp only [List.zipWith_cons_cons, List.mem_cons, List.cons.injEq]
      constructor
      · intro h
        have hw : w = g := (natXor_eq_zero w g).mp (h _ (Or.inl rfl))
        have hws : ws = gs := (ih gs hlen).mp (fun x hx => h x (Or.inr hx))
        exact ⟨hw, hws⟩
      · rintro ⟨hw, hws⟩ x hx
        rcases hx with hx | hx
        · rw [hx, hw]; exact (natXor_eq_zero g g).mpr rfl
        · exact (ih gs hlen).mpr hws x hx

theorem isPrefixOf_iff_append (p : Bytes) :
    ∀ l : Bytes, p.isPrefixOf l = true ↔ ∃ t, l = p ++ t := by
  induction p with
  | nil =>
    intro l
    simp [List.isPrefixOf]
  | cons a as ih =>
    intro l
    cases l with
    | nil =>
      simp [List.isPrefixOf]
    | cons b bs =>
      simp only [List.isPrefixOf, Bool.and_eq_true, beq_iff_eq, ih bs]
      constructor
      · rintro ⟨hab, t, ht⟩
        exact ⟨t, by simp [hab, ht]⟩
      · rintro ⟨t, ht⟩
        simp only [List.cons_append, List.cons.injEq] at ht
        exact ⟨ht.1.symm, t, ht.2⟩

theorem drop_length_append (p t : Bytes) : (p ++ t).drop p.length = t := by
  induction p with
  | nil => simp
  | cons a as ih => simp [ih]

theorem adminKeyOK_iff (bcryptOK : Bytes → Bytes → Bool) (cfg : ServerConfig)
    (tok : Bytes) :
    adminKeyOK bcryptOK cfg tok = true ↔
      ((cfg.adminAPIKeyHashes ≠ [] ∧
          ∃ h ∈ cfg.adminAPIKeyHashes, h ≠ [] ∧ bcryptOK h tok = true) ∨
        (cfg.adminAPIKeyHashes = [] ∧ cfg.adminAPIKey ≠ [] ∧
          tok = cfg.adminAPIKey)) := by
  unfold adminKeyOK
  cases hhs : cfg.adminAPIKeyHashes with
  | cons h0 hs =>
    rw [if_pos (by simp)]
    rw [List.any_eq_true]
    constructor
    · rintro ⟨h, hmem, hb⟩
      rw [Bool.and_eq_true, Bool.not_eq_true'] at hb
      refine Or.inl ⟨by simp, h, hmem, ?_, hb.2⟩
      intro he
      subst he
      simp at hb
    · rintro (⟨-, h, hmem, hne, hb⟩ | ⟨hcontra, -⟩)
      · refine ⟨h, hmem, ?_⟩
        rw [Bool.and_eq_true, Bool.not_eq_true']
        refine ⟨?_, hb⟩
        cases h with
        | nil => exact absurd rfl hne
        | cons a l => rfl
      · exact absurd hcontra (by simp)
  | nil =>
    rw [if_neg (by simp)]
    cases hw : cfg.adminAPIKey with
    | nil => simp
    | cons w ws =>
      rw [if_neg (by simp)]
      by_cases hlen : tok.length = (w :: ws).length
      · rw [if_neg (by omega)]
        rw [beq_iff_eq, ctMatch_eq_zero _ _ hlen.symm]
        constructor
        · intro h
          exact Or.inr ⟨rfl, by simp, h.symm⟩
        · rintro (⟨hne, -⟩ | ⟨-, -, heq⟩)
          · exact absurd rfl hne
          · exact heq.symm
      · rw [if_pos (by omega)]
        constructor
        · intro h
          exact absurd h (by simp)
        · rintro (⟨hne, -⟩ | ⟨-, -, heq⟩)
          · exact absurd rfl hne
          · exact absurd (congrArg List.length heq) hlen

/-! ### Admin-auth failure tracker (middleware `failureTracker`) -/

/-- `adminFailureWindow = 10 * time.Minute`, in nanoseconds. -/
def adminFailureWindow : Nat := 600000000000

/-- `adminFailureThreshold = 5`. -/
def adminFailureThreshold : Nat := 5

/-- `failureState` (middleware): per-origin failure count, time of last
failure (nanoseconds), and whether an alert was already raised for the
current window. -/
structure FailureState where
  count : Nat
  last : Nat
  alerted : Bool
deriving DecidableEq

/-- The tracker's `state map[string]*failureState`, modelled as an
association list keyed by origin. -/
abbrev TrackerState := List (String × FailureState)

/-- Map lookup `t.state[key]` (nil pointer modelled as `none`). -/
def lookupState : TrackerState → String → Option FailureState
  | [], _ => none
  | (k', st) :: rest, k => if k' = k then some st else lookupState rest k

/-- Map assignment `t.state[key] = st`. -/
def setState : TrackerState → String → FailureState → TrackerState
  | [], k, st => [(k, st)]
  | (k', st') :: rest, k, st =>
    if k' = k then (k, st) :: rest else (k', st') :: setState rest k st

/-- `failureTracker.recordFailure` (middleware): fetch the key's state;
if absent or stale (`now.Sub(st.last) > adminFailureWindow`) start from
a zero state; increment the count and stamp `last = now`; if the count
has reached the threshold and no alert was raised yet, set the alerted
flag and report `shouldAlert = true`.  Returns (new tracker state,
count, shouldAlert).  `resolveState` is the state-fetch step: take the
key's entry, replacing a missing or stale entry — one whose
`now.Sub(st.last)` exceeds `adminFailureWindow` — by a fresh zero
state. -/
def resolveState (t : TrackerState) (k : String) (now : Nat) : FailureState :=
  match lookupState t k with
  | some st => if adminFailureWindow < now - st.last then ⟨0, 0, false⟩ else st
  | none => ⟨0, 0, false⟩

def recordFailure (t : TrackerState) (k : String) (now : Nat) :
    TrackerState × Nat × Bool :=
  let base := resolveState t k now
  let c := base.count + 1
  if adminFailureThreshold ≤ c ∧ base.alerted = false then
    (setState t k ⟨c, now, true⟩, c, true)
  else
    (setState t k ⟨c, now, base.alerted⟩, c, false)

/-- `failureTracker.reset` (middleware): `delete(t.state, key)`. -/
def reset (t : TrackerState) (k : String) : TrackerState :=
  t.filter (fun e => e.1 ≠ k)

/-- Tracker states reachable from the fresh tracker (`newFailureTracker`)
by any interleaving of recorded failures and resets. -/
inductive TrackerReach : TrackerState → Prop where
  | init : TrackerReach []
  | fail (t : TrackerState) (k : String) (now : Nat) :
      TrackerReach t → TrackerReach (recordFailure t k now).1
  | success (t : TrackerState) (k : String) :
      TrackerReach t → TrackerReach (reset t k)

theorem lookupState_setState_self (t : TrackerState) (k : String)
    (st : FailureState) : lookupState (setState t k st) k = some st := by
  induction t with
  | nil => simp [setState, lookupState]
  | cons e rest ih =>
    by_cases h : e.1 = k
    · simp [setState, h, lookupState]
    · simp [setState, h, lookupState, ih]

theorem lookupState_setState_other (t : TrackerState) (k k' : String)
    (st : FailureState) (hne : k' ≠ k) :
    lookupState (setState t k st) k' = lookupState t k' := by
  induction t with
  | nil =>
    show lookupState [(k, st)] k' = none
    simp only [lookupState]
    rw [if_neg (fun h => hne h.symm)]
  | cons e rest ih =>
    rcases e with ⟨ek, est⟩
    by_cases h : ek = k
    · subst h
      simp only [setState, if_pos rfl]
      show lookupState ((ek, st) :: rest) k' = lookupState ((ek, est) :: rest) k'
      simp only [lookupState]
      rw [if_neg (fun hh => hne hh.symm), if_neg (fun hh => hne hh.symm)]
    · simp only [setState, if_neg h]
      show lookupState ((ek, est) :: setState rest k st) k' =
        lookupState ((ek, est) :: rest) k'
      simp only [lookupState]
      by_cases h2 : ek = k'
      · rw [if_pos h2, if_pos h2]
      · rw [if_neg h2, if_neg h2]
        exact ih

theorem lookupState_reset_self (t : TrackerState) (k : String) :
    lookupState (reset t k) k = none := by
  induction t with
  | nil => rfl
  | cons e rest ih =>
    rcases e with ⟨ek, est⟩
    by_cases h : ek = k
    · unfold reset at ih ⊢
      simp only [List.filter_cons]
      rw [if_neg (by simp [h])]
      exact ih
    · unfold reset at ih ⊢
      simp only [List.filter_cons]
      rw [if_pos (by simp [h])]
      show lookupState ((ek, est) :: _) k = none
      simp only [lookupState]
      rw [if_neg h]
      exact ih

theorem lookupState_reset_other (t : TrackerState) (k k' : String)
    (hne : k' ≠ k) : lookupState (reset t k) k' = lookupState t k' := by
  induction t with
  | nil => rfl
  | cons e rest ih =>
    rcases e with ⟨ek, est⟩
    by_cases h : ek = k
    · unfold reset at ih ⊢
      simp only [List.filter_cons]
      rw [if_neg (by simp [h])]
      show lookupState _ k' = lookupState ((ek, est) :: rest) k'
      rw [ih]
      simp only [lookupState]
      rw [if_neg (fun hh => hne (h ▸ hh).symm)]
    · unfold reset at ih ⊢
      simp only [List.filter_cons]
      rw [if_pos (by simp [h])]
      show lookupState ((ek, est) :: _) k' = lookupState ((ek, est) :: rest) k'
      simp only [lookupState]
      by_cases h2 : ek = k'
      · rw [if_pos h2, if_pos h2]
      · rw [if_neg h2, if_neg h2]
        exact ih

theorem recordFailure_eq (t : TrackerState) (k : String) (now : Nat) :
    recordFailure t k now =
      (if adminFailureThreshold ≤ (resolveState t k now).count + 1 ∧
          (resolveState t k now).alerted = false then
        (setState t k ⟨(resolveState t k now).count + 1, now, true⟩,
          (resolveState t k now).count + 1, true)
      else
        (setState t k ⟨(resolveState t k now).count + 1, now,
            (resolveState t k now).alerted⟩,
          (resolveState t k now).count + 1, false)) := rfl

theorem resolveState_cases (t : TrackerState) (k : String) (now : Nat) :
    resolveState t k now = ⟨0, 0, false⟩ ∨
      (lookupState t k = some (resolveState t k now) ∧
        now - (resolveState t k now).last ≤ adminFailureWindow) := by
  unfold resolveState
  cases hlk : lookupState t k with
  | none => exact Or.inl rfl
  | some st0 =>
    dsimp only
    by_cases hw : adminFailureWindow < now - st0.last
    · rw [if_pos hw]
      exact Or.inl rfl
    · rw [if_neg hw]
      exact Or.inr ⟨rfl, by omega⟩

/-- Invariant of every reachable tracker state: an entry is flagged
alerted exactly when its failure count has reached the threshold. -/
theorem trackerReach_invariant (t : TrackerState) (h : TrackerReach t) :
    ∀ k st, lookupState t k = some st →
      (st.alerted = true ↔ adminFailureThreshold ≤ st.count) := by
  induction h with
  | init => intro k st hl; cases hl
  | fail t0 k0 now _ ih =>
    intro k st hl
    rw [recordFailure_eq] at hl
    by_cases hk : k = k0
    · subst hk
      split at hl
      · rename_i hcond
        rw [lookupState_setState_self] at hl
        rcases Option.some.inj hl with rfl
        constructor
        · intro _
          exact hcond.1
        · intro _
          rfl
      · rename_i hcond
        rw [lookupState_setState_self] at hl
        rcases Option.some.inj hl with rfl
        show (resolveState t0 k now).alerted = true ↔
          adminFailureThreshold ≤ (resolveState t0 k now).count + 1
        by_cases hba : (resolveState t0 k now).alerted = true
        · constructor
          · intro _
            rcases resolveState_cases t0 k now with hres | ⟨hres, -⟩
            · rw [hres] at hba
              cases hba
            · have h5 := (ih k _ hres).mp hba
              omega
          · intro _
            exact hba
        · have hbf : (resolveState t0 k now).alerted = false := by
            cases hx : (resolveState t0 k now).alerted
            · rfl
            · exact absurd hx hba
          constructor
          · intro hcontra
            rw [hbf] at hcontra
            cases hcontra
          · intro h5
            exact absurd ⟨h5, hbf⟩ hcond
    · split at hl <;>
      · rw [lookupState_setState_other _ _ _ _ hk] at hl
        exact ih k st hl
  | success t0 k0 _ ih =>
    intro k st hl
    by_cases hk : k = k0
    · subst hk
      rw [lookupState_reset_self] at hl
      cases hl
    · rw [lookupState_reset_other _ _ _ hk] at hl
      exact ih k st hl

/-! ### Token-bucket rate limiter (`internal/middleware/ratelimit.go`) -/

/-- A `bucket`: floating-point token count and last-refill time.  Go
`float64` arithmetic is modelled over `ℚ`; times are in seconds. -/
structure Bucket where
  tokens : ℚ
  lastRefill : ℚ
deriving DecidableEq

/-- The refill step of `limiter.allow`:
`b.tokens = mathMin(l.burst, b.tokens+elapsed*l.rps)`. -/
def refillTokens (rps burst : ℚ) (b : Bucket) (now : ℚ) : ℚ :=
  min burst (b.tokens + (now - b.lastRefill) * rps)

/-- `limiter.allow` for one key's bucket (the stale-bucket sweep does not
touch the bucket being served and is omitted): a missing bucket starts
full (`tokens = burst`); refill capped at burst; if at least one token is
available consume one and permit, else deny with
`retryAfter = (1 - tokens) / rps` seconds.  Returns the updated bucket,
the permit decision, and the retry-after wait in seconds. -/
def allow (rps burst : ℚ) (b : Option Bucket) (now : ℚ) :
    Bucket × Bool × ℚ :=
  let b0 := b.getD ⟨burst, now⟩
  let t := refillTokens rps burst b0 now
  if 1 ≤ t then
    (⟨t - 1, now⟩, true, 0)
  else
    (⟨t, now⟩, false, (1 - t) / rps)

/-! ### Rate-limit categories (`WithRateLimit`) -/

/-- The three limiters instantiated by `WithRateLimit`:
`fast = newLimiter(5, 10, 10m)`, `admin = newLimiter(1, 3, 10m)`,
`deflt = newLimiter(2, 5, 10m)`. -/
inductive RateCategory where
  | fast
  | admin
  | deflt
deriving DecidableEq

/-- The `switch r.URL.Path` of `WithRateLimit`: validate and heartbeat
go to the `fast` limiter, issue and revoke to the `admin` limiter, and
every other path to the `deflt` limiter. -/
def rateCategoryFor (path : String) : RateCategory :=
  if path = "/api/v1/licenses/validate" ∨ path = "/api/v1/licenses/heartbeat" then
    .fast
  else if path = "/api/v1/licenses/issue" ∨ path = "/api/v1/licenses/revoke" then
    .admin
  else
    .deflt

/-- The route the server registers for the update handler
(`internal/server` `Handler`). -/
def updateRoutePath : String := "/api/v1/licenses/update"

/-- The route the server registers for the list handler
(`internal/server` `Handler`). -/
def listRoutePath : String := "/api/v1/licenses"

/-! ### License handlers (`internal/handlers/lisence.go`) -/

/-- `ValidateRequest`: `license_key` and `machine_id`. -/
structure ValidateRequest where
  licenseKey : String
  machineID : String
deriving DecidableEq

/-- `ValidateResponse`.  In Go, `ExpiresAt` is a `time.Time` whose zero
value means the field was never set; that zero value is modelled as
`none`.  `Reason` carries `omitempty`, so the absent reason is `none`. -/
structure ValidateResponse where
  valid : Bool
  revoked : Bool
  expiresAt : Option Nat
  reason : Option String
deriving DecidableEq

/-- A stored `expires_at` value as the validate handler receives it from
the repository: the Postgres path scans a native `timestamptz`
(`native`), the SQLite path scans RFC3339 text which must be parsed and
may fail (`text none` = text that parses under neither RFC3339Nano nor
RFC3339). -/
inductive StoredExpiry where
  | native (t : Nat)
  | text (parsed : Option Nat)
deriving DecidableEq

/-- The value the driver-specific scan/parse step produces, if any. -/
def storedExpiryVal : StoredExpiry → Option Nat
  | .native t => some t
  | .text p => p

/-- The three columns `ValidateLicense` selects:
`revoked, expires_at, machine_id`. -/
structure StoredRecord where
  revoked : Bool
  expiresAt : StoredExpiry
  machineID : String
deriving DecidableEq

/-- Outcome of an HTTP handler: a JSON-rendered value with a status code
(`writeJSON`), or a plain-text error response (`http.Error`). -/
inductive HandlerResult (α : Type) where
  | ok (code : Nat) (v : α)
  | httpError (code : Nat) (body : String)
deriving DecidableEq

/-- The decision chain at the end of `ValidateLicense`, after the record
has been fetched and its expiry parsed: machine mismatch first, then
revocation, then expiry (`time.Now().After(expires)`, i.e.
`expires < now`), else valid. -/
def validateDecision (machineID : String) (revoked : Bool) (expires : Nat)
    (reqMachine : String) (now : Nat) : ValidateResponse :=
  if machineID ≠ reqMachine then
    ⟨false, false, none, some "machine mismatch"⟩
  else if revoked then
    ⟨false, true, some expires, some "revoked"⟩
  else if expires < now then
    ⟨false, false, some expires, some "expired"⟩
  else
    ⟨true, false, some expires, none⟩

/-- `ValidateLicense` from the repository lookup onward.  The lookup is
`Except`: `.error` is a repository fault (any scan error other than
`sql.ErrNoRows`, routed to `internalError`), `.ok none` is
`sql.ErrNoRows` (unknown license), `.ok (some rec)` is a found row.  A
SQLite expiry string that parses under neither accepted format yields
the internal `bad expires_at format` error. -/
def validateLicense (lookup : Except String (Option StoredRecord))
    (reqMachine : String) (now : Nat) : HandlerResult ValidateResponse :=
  match lookup with
  | .error _ => .httpError 500 "internal server error"
  | .ok none => .ok 200 ⟨false, false, none, some "unknown license"⟩
  | .ok (some rec) =>
    match storedExpiryVal rec.expiresAt with
    | none => .httpError 500 "bad expires_at format"
    | some expires =>
      .ok 200 (validateDecision rec.machineID rec.revoked expires reqMachine now)

/-- The whole `ValidateLicense` handler body after JSON decoding: the
required-field check, then the lookup-and-decide chain. -/
def validateHandler (req : ValidateRequest)
    (lookup : Except String (Option StoredRecord)) (now : Nat) :
    HandlerResult ValidateResponse :=
  if req.licenseKey = "" ∨ req.machineID = "" then
    .httpError 400 "license_key and machine_id required"
  else
    validateLicense lookup req.machineID now

/-! ### The repository-backed license store and the mutating operations -/

/-- A row of the `licenses` table (the columns the core touches). -/
structure LicenseRecord where
  id : String
  licenseKey : String
  customer : String
  machineID : String
  features : String
  expiresAt : Nat
  revoked : Bool
  lastSeenAt : Option Nat
deriving DecidableEq

/-- The `insert into licenses ...` of `IssueLicense`, under the schema's
`license_key TEXT UNIQUE NOT NULL` constraint
(migration `0001_init.sql`): inserting a duplicate key fails. -/
def insertLicense (store : List LicenseRecord) (rec : LicenseRecord) :
    Except String (List LicenseRecord) :=
  if store.any (fun r => r.licenseKey == rec.licenseKey) then
    .error "unique constraint violation"
  else
    .ok (store ++ [rec])

/-- One core operation, as it acts on the `licenses` table.
`issue` carries the request fields plus the freshly generated id and
license key; per the insert statement, the new row has `revoked=false`
and `last_seen_at=null`.  `revoke` is
`update licenses set revoked=true ... where license_key=$1`.
`heartbeat` sets `last_seen_at`.  `update` sets `expires_at` and/or
`features` per the provided optional fields.  `validate` and `list`
only read. -/
inductive CoreOp where
  | issue (id licenseKey customer machineID features : String)
      (expiresAt : Nat)
  | revoke (licenseKey : String)
  | heartbeat (licenseKey : String) (now : Nat)
  | update (licenseKey : String) (newExpiresAt : Option Nat)
      (newFeatures : Option String)
  | validate
  | list

/-- The effect of one core operation on the `licenses` table.  A failed
insert (duplicate key) leaves the table unchanged, as does any operation
that only reads. -/
def applyOp (store : List LicenseRecord) : CoreOp → List LicenseRecord
  | .issue id key customer machineID features expiresAt =>
    match insertLicense store
        ⟨id, key, customer, machineID, features, expiresAt, false, none⟩ with
    | .ok s => s
    | .error _ => store
  | .revoke key =>
    store.map (fun r =>
      if r.licenseKey = key then { r with revoked := true } else r)
  | .heartbeat key now =>
    store.map (fun r =>
      if r.licenseKey = key then { r with lastSeenAt := some now } else r)
  | .update key newExp newFeat =>
    store.map (fun r =>
      if r.licenseKey = key then
        { r with expiresAt := newExp.getD r.expiresAt,
                 features := newFeat.getD r.features }
      else r)
  | .validate => store
  | .list => store

/-! ### Issuance pipeline, `internalError`, and `decodeJSON` -/

/-- `IssueRequest`: `customer`, `machine_id`, `expires_at` (a zero
`time.Time` is modelled as `0`). -/
structure IssueRequest where
  customer : String
  machineID : String
  expiresAt : Nat
deriving DecidableEq

/-- The fallible collaborators of `IssueLicense`: the repository insert
(`db.ExecContext`), the signing-key load (`cfg.PrivateKey()`), and the
signer (`crypto.SignJSON`, applied to the loaded key). -/
structure IssueDeps where
  insertResult : Except String Unit
  privateKey : Except String String
  sign : String → Except String String

/-- What `IssueLicense` ends with. -/
inductive IssueOutcome where
  | artifact (licenseKey sig : String)
  | internalFailure (op : String)
  | badRequest (msg : String)
deriving DecidableEq

/-- The `IssueLicense` handler body after JSON decoding, instrumented
with which collaborators ran: returns (outcome, insert attempted,
signer invoked).  The order is the source's: field validation, then the
insert, then the key load, then signing. -/
def issueLicense (req : IssueRequest) (licenseKey : String)
    (deps : IssueDeps) : IssueOutcome × Bool × Bool :=
  if req.customer = "" ∨ req.machineID = "" ∨ req.expiresAt = 0 then
    (.badRequest "customer, machine_id, expires_at required", false, false)
  else
    match deps.insertResult with
    | .error _ => (.internalFailure "issue.insert", true, false)
    | .ok _ =>
      match deps.privateKey with
      | .error _ => (.internalFailure "issue.private_key", true, false)
      | .ok priv =>
        match deps.sign priv with
        | .error _ => (.internalFailure "issue.sign", true, true)
        | .ok sig => (.artifact licenseKey sig, true, true)

/-- An HTTP response: status code and body. -/
structure HttpResponse where
  status : Nat
  body : String
deriving DecidableEq

/-- The two effects of `internalError` (lisence.go): the server-side log
line (`log.Printf("handler error op=%s err=%v", op, err)`) carrying the
full error, and the caller-visible response, always
`500 internal server error`. -/
structure ErrorEffect where
  logLine : String
  response : HttpResponse
deriving DecidableEq

def internalError (op err : String) : ErrorEffect :=
  { logLine := "handler error op=" ++ op ++ " err=" ++ err,
    response := ⟨500, "internal server error"⟩ }

/-- How `IssueLicense` renders its outcome: the artifact is written as
the JSON `LicenseFile` (abstracted here as a body holding the key and
signature), an internal failure goes through `internalError`, and a
validation failure through `http.Error(..., StatusBadRequest)`. -/
def renderIssueOutcome : IssueOutcome → HttpResponse
  | .artifact key sig => ⟨200, "license-file:" ++ key ++ ":" ++ sig⟩
  | .internalFailure op => (internalError op "").response
  | .badRequest msg => ⟨400, msg⟩

/-- `maxJSONBody = 64 * 1024`. -/
def maxJSONBody : Nat := 64 * 1024

/-- An incoming request body as `decodeJSON` consumes it through
`http.MaxBytesReader`: `valueLen` is the number of bytes the JSON
decoder reads to finish (or reject) the first JSON value,
`valueWellFormed` says whether that first value is syntactically valid
JSON matching the target type, and `trailingLen` counts bytes after the
first value.  `MaxBytesReader` raises `MaxBytesError` exactly when more
than `maxJSONBody` bytes are read. -/
structure JsonBody where
  valueLen : Nat
  valueWellFormed : Bool
  trailingLen : Nat
deriving DecidableEq

/-- What `decodeJSON` does with a body. -/
inductive DecodeResult where
  | ok
  | tooLarge
  | badJSON
deriving DecidableEq

/-- `decodeJSON` (lisence.go): reading the first value past the 64 KiB
limit yields the `MaxBytesError` branch (413); a malformed first value
within the limit yields `bad json` (400); a well-formed first value
followed by trailing data trips `dec.More()` and also yields
`bad json`; otherwise decoding succeeds. -/
def decodeJSON (b : JsonBody) : DecodeResult :=
  if maxJSONBody < b.valueLen then .tooLarge
  else if b.valueWellFormed = false then .badJSON
  else if 0 < b.trailingLen then .badJSON
  else .ok

/-- The full `IssueLicense` handler: `decodeJSON` runs first and a
decode failure returns before the repository or the signer can run.
Returns (response, insert attempted, signer invoked). -/
def issueHandler (body : JsonBody) (req : IssueRequest) (licenseKey : String)
    (deps : IssueDeps) : HttpResponse × Bool × Bool :=
  match decodeJSON body with
  | .tooLarge => (⟨413, "request body too large"⟩, false, false)
  | .badJSON => (⟨400, "bad json"⟩, false, false)
  | .ok =>
    match issueLicense req licenseKey deps with
    | (outcome, db, sgn) => (renderIssueOutcome outcome, db, sgn)

/-! ### Claim theorems -/

/-- C1: when a record exists for the license key but its `machine_id`
differs from the presented one, validate answers
`valid=false, reason="machine mismatch"` with no revocation flag and no
expiry, whatever the record's revoked flag and expiry are — the machine
check runs before the revocation and expiry checks. -/
theorem c1_machine_mismatch_precedence (rec : StoredRecord)
    (reqMachine : String) (now expires : Nat)
    (hexp : storedExpiryVal rec.expiresAt = some expires)
    (hne : rec.machineID ≠ reqMachine) :
    validateLicense (.ok (some rec)) reqMachine now =
      .ok 200 ⟨false, false, none, some "machine mismatch"⟩ := by
  unfold validateLicense
  dsimp only
  rw [hexp]
  dsimp only
  unfold validateDecision
  rw [if_pos hne]

theorem c1_witness :
    storedExpiryVal (StoredRecord.mk true (.native 0) "MID1").expiresAt =
        some 0 ∧
      (StoredRecord.mk true (.native 0) "MID1").machineID ≠ "OTHER" ∧
      validateLicense (.ok (some (StoredRecord.mk true (.native 0) "MID1")))
          "OTHER" 5 =
        .ok 200 ⟨false, false, none, some "machine mismatch"⟩ :=
  ⟨rfl, by decide,
    c1_machine_mismatch_precedence (StoredRecord.mk true (.native 0) "MID1")
      "OTHER" 5 0 rfl (by decide)⟩

/-- C2: no core operation flips a record's `revoked` flag from true back
to false — any unrevoked record after an operation either was already
unrevoked or is a freshly inserted row under a key absent before — and
validate on a revoked record (with the bound machine) reports
`valid=false, revoked=true, reason="revoked"` with `expires_at`
surfaced, regardless of expiry. -/
theorem c2_revocation_one_way :
    (∀ (store : List LicenseRecord) (op : CoreOp) (r' : LicenseRecord),
        r' ∈ applyOp store op → r'.revoked = false →
        (∃ r ∈ store, r.licenseKey = r'.licenseKey ∧ r.revoked = false) ∨
          (∀ r ∈ store, r.licenseKey ≠ r'.licenseKey)) ∧
    (∀ (rec : LicenseRecord) (reqMachine : String) (now : Nat),
        rec.revoked = true → rec.machineID = reqMachine →
        validateDecision rec.machineID rec.revoked rec.expiresAt reqMachine
            now =
          ⟨false, true, some rec.expiresAt, some "revoked"⟩) := by
  constructor
  · intro store op r' hmem hfalse
    cases op with
    | issue id key customer machineID features expiresAt =>
      unfold applyOp insertLicense at hmem
      dsimp only at hmem
      by_cases hany :
          (store.any fun r => r.licenseKey == key) = true
      · rw [if_pos hany] at hmem
        dsimp only at hmem
        exact Or.inl ⟨r', hmem, rfl, hfalse⟩
      · rw [if_neg hany] at hmem
        dsimp only at hmem
        rcases List.mem_append.mp hmem with hin | hin
        · exact Or.inl ⟨r', hin, rfl, hfalse⟩
        · rcases List.mem_singleton.mp hin with rfl
          refine Or.inr ?_
          intro r hr heq
          apply hany
          rw [List.any_eq_true]
          exact ⟨r, hr, by rw [beq_iff_eq]; exact heq⟩
    | revoke key =>
      unfold applyOp at hmem
      rcases List.mem_map.mp hmem with ⟨r, hr, hfr⟩
      by_cases hkey : r.licenseKey = key
      · rw [if_pos hkey] at hfr
        rw [← hfr] at hfalse
        exact Bool.noConfusion hfalse
      · rw [if_neg hkey] at hfr
        subst hfr
        exact Or.inl ⟨r, hr, rfl, hfalse⟩
    | heartbeat key now =>
      unfold applyOp at hmem
      rcases List.mem_map.mp hmem with ⟨r, hr, hfr⟩
      by_cases hkey : r.licenseKey = key
      · rw [if_pos hkey] at hfr
        subst hfr
        exact Or.inl ⟨r, hr, rfl, hfalse⟩
      · rw [if_neg hkey] at hfr
        subst hfr
        exact Or.inl ⟨r, hr, rfl, hfalse⟩
    | update key newExp newFeat =>
      unfold applyOp at hmem
      rcases List.mem_map.mp hmem with ⟨r, hr, hfr⟩
      by_cases hkey : r.licenseKey = key
      · rw [if_pos hkey] at hfr
        subst hfr
        exact Or.inl ⟨r, hr, rfl, hfalse⟩
      · rw [if_neg hkey] at hfr
        subst hfr
        exact Or.inl ⟨r, hr, rfl, hfalse⟩
    | validate => exact Or.inl ⟨r', hmem, rfl, hfalse⟩
    | list => exact Or.inl ⟨r', hmem, rfl, hfalse⟩
  · intro rec reqMachine now hrev hmach
    unfold validateDecision
    rw [if_neg (by rw [hmach]; exact fun h => h rfl)]
    rw [hrev]
    rw [if_pos rfl]

theorem c2_witness :
    ((∃ r ∈ ([⟨"i", "k", "c", "m", "f", 10, false, none⟩] :
          List LicenseRecord),
        r.licenseKey =
            (⟨"i", "k", "c", "m", "f", 10, false, none⟩ :
              LicenseRecord).licenseKey ∧
          r.revoked = false) ∨
      (∀ r ∈ ([⟨"i", "k", "c", "m", "f", 10, false, none⟩] :
          List LicenseRecord),
        r.licenseKey ≠
          (⟨"i", "k", "c", "m", "f", 10, false, none⟩ :
            LicenseRecord).licenseKey)) ∧
    validateDecision "m" true 10 "m" 99 =
      ⟨false, true, some 10, some "revoked"⟩ :=
  ⟨c2_revocation_one_way.1 [⟨"i", "k", "c", "m", "f", 10, false, none⟩]
      (.revoke "other") ⟨"i", "k", "c", "m", "f", 10, false, none⟩
      (by decide) rfl,
    c2_revocation_one_way.2 ⟨"i", "k", "c", "m", "f", 10, true, none⟩ "m" 99
      rfl rfl⟩

/-- C3: admin authorization succeeds exactly when the header is the
exact prefix "Bearer " followed by a token that the configured secrets
accept — bcrypt hashes take priority when configured, otherwise the
plaintext key via the length-checked OR-of-XOR comparison (which decides
exactly byte equality) — and a header starting "BearerX" (no separating
space) is always rejected. -/
theorem c3_admin_auth (bc : Bytes → Bytes → Bool) (cfg : ServerConfig) :
    (∀ header : Bytes,
        withAdminKeyAuthorized bc cfg header = true ↔
          ∃ tok, header = bearerPfx ++ tok ∧
            ((cfg.adminAPIKeyHashes ≠ [] ∧
                ∃ h ∈ cfg.adminAPIKeyHashes, h ≠ [] ∧ bc h tok = true) ∨
              (cfg.adminAPIKeyHashes = [] ∧ cfg.adminAPIKey ≠ [] ∧
                tok = cfg.adminAPIKey))) ∧
    (∀ want got : Bytes, want.length = got.length →
        (ctMatch want got = 0 ↔ want = got)) ∧
    (∀ rest : Bytes,
        withAdminKeyAuthorized bc cfg (bearerXBytes ++ rest) = false) := by
  refine ⟨?_, ctMatch_eq_zero, ?_⟩
  · intro header
    unfold withAdminKeyAuthorized
    by_cases hp : bearerPfx.isPrefixOf header = true
    · rw [if_pos hp]
      obtain ⟨t, rfl⟩ := (isPrefixOf_iff_append bearerPfx header).mp hp
      rw [drop_length_append, adminKeyOK_iff]
      constructor
      · intro h
        exact ⟨t, rfl, h⟩
      · rintro ⟨tok, heq, h⟩
        rcases List.append_cancel_left heq with rfl
        exact h
    · rw [if_neg hp]
      constructor
      · intro h
        cases h
      · rintro ⟨tok, rfl, -⟩
        exact absurd ((isPrefixOf_iff_append bearerPfx _).mpr ⟨tok, rfl⟩) hp
  · intro rest
    unfold withAdminKeyAuthorized
    rw [if_neg]
    simp [bearerPfx, bearerXBytes, List.isPrefixOf]

theorem c3_witness :
    ([97] : Bytes).length = ([97] : Bytes).length ∧
      (ctMatch [97] [97] = 0 ↔ ([97] : Bytes) = [97]) :=
  ⟨rfl, (c3_admin_auth (fun _ _ => false) ⟨[97], []⟩).2.1 [97] [97] rfl⟩

/-- C4: a failure against an untracked or stale key starts a fresh
window with count 1 and a cleared alert flag (and no alert, since the
threshold is 5); a failure within the window increments the count,
alerts exactly when the count reaches the threshold of 5 (given the
tracker state is reachable, hence its alerted flag is consistent), and
further in-window failures never re-alert; a success removes the key's
state entirely. -/
theorem c4_failure_tracker :
    (∀ (t : TrackerState) (k : String) (now : Nat),
        lookupState t k = none →
          recordFailure t k now = (setState t k ⟨1, now, false⟩, 1, false)) ∧
    (∀ (t : TrackerState) (k : String) (now : Nat) (st : FailureState),
        lookupState t k = some st →
          adminFailureWindow < now - st.last →
          recordFailure t k now = (setState t k ⟨1, now, false⟩, 1, false)) ∧
    (∀ (t : TrackerState) (k : String) (now : Nat) (st : FailureState),
        TrackerReach t →
        lookupState t k = some st →
        now - st.last ≤ adminFailureWindow →
          (recordFailure t k now).2.1 = st.count + 1 ∧
          ((recordFailure t k now).2.2 = true ↔
            st.count + 1 = adminFailureThreshold) ∧
          lookupState (recordFailure t k now).1 k =
            some ⟨st.count + 1, now,
              st.alerted || decide (adminFailureThreshold ≤ st.count + 1)⟩) ∧
    (∀ (t : TrackerState) (k : String), lookupState (reset t k) k = none) := by
  refine ⟨?_, ?_, ?_, fun t k => lookupState_reset_self t k⟩
  · intro t k now hlk
    have hbase : resolveState t k now = ⟨0, 0, false⟩ := by
      unfold resolveState
      rw [hlk]
    rw [recordFailure_eq, hbase]
    rw [if_neg (by decide)]
  · intro t k now st hlk hstale
    have hbase : resolveState t k now = ⟨0, 0, false⟩ := by
      unfold resolveState
      rw [hlk]
      dsimp only
      rw [if_pos hstale]
    rw [recordFailure_eq, hbase]
    rw [if_neg (by decide)]
  · intro t k now st ht hlk hwin
    have hbase : resolveState t k now = st := by
      unfold resolveState
      rw [hlk]
      dsimp only
      rw [if_neg (by omega)]
    have hinv := trackerReach_invariant t ht k st hlk
    rw [recordFailure_eq, hbase]
    by_cases hcond : adminFailureThreshold ≤ st.count + 1 ∧ st.alerted = false
    · rw [if_pos hcond]
      refine ⟨rfl, ?_, ?_⟩
      · constructor
        · intro _
          have hlt : ¬ adminFailureThreshold ≤ st.count := by
            intro h5
            rw [hinv.mpr h5] at hcond
            exact Bool.noConfusion hcond.2
          omega
        · intro _
          rfl
      · rw [lookupState_setState_self]
        have hdec : decide (adminFailureThreshold ≤ st.count + 1) = true :=
          decide_eq_true hcond.1
        rw [hcond.2, hdec]
        rfl
    · rw [if_neg hcond]
      refine ⟨rfl, ?_, ?_⟩
      · constructor
        · intro hcontra
          exact Bool.noConfusion hcontra
        · intro h5eq
          exfalso
          have half : st.alerted = false := by
            cases hx : st.alerted
            · rfl
            · have := hinv.mp hx
              omega
          exact hcond ⟨by omega, half⟩
      · rw [lookupState_setState_self]
        cases hx : st.alerted
        · have hn5 : ¬ adminFailureThreshold ≤ st.count + 1 := fun h5 =>
            hcond ⟨h5, hx⟩
          have hdec : decide (adminFailureThreshold ≤ st.count + 1) = false :=
            decide_eq_false hn5
          rw [hdec]
          rfl
        · rfl

theorem c4_witness :
    (lookupState [] "k" = none ∧
      recordFailure [] "k" 0 = (setState [] "k" ⟨1, 0, false⟩, 1, false)) ∧
    lookupState (reset [("k", ⟨3, 0, false⟩)] "k") "k" = none :=
  ⟨⟨rfl, c4_failure_tracker.1 [] "k" 0 rfl⟩,
    c4_failure_tracker.2.2.2 [("k", ⟨3, 0, false⟩)] "k"⟩

/-- C5: `allow` refills first — elapsed time times rate, capped at the
burst capacity, so the token count never exceeds burst no matter how
long the key was idle — then permits and consumes exactly one token when
at least one is available, and otherwise denies with a retry wait of
`(1 - current_tokens) / rate` seconds. -/
theorem c5_token_bucket (rps burst : ℚ) (b : Option Bucket) (now : ℚ) :
    refillTokens rps burst (b.getD ⟨burst, now⟩) now ≤ burst ∧
    (allow rps burst b now).1.tokens ≤ burst ∧
    (1 ≤ refillTokens rps burst (b.getD ⟨burst, now⟩) now →
      allow rps burst b now =
        (⟨refillTokens rps burst (b.getD ⟨burst, now⟩) now - 1, now⟩,
          true, 0)) ∧
    (refillTokens rps burst (b.getD ⟨burst, now⟩) now < 1 →
      allow rps burst b now =
        (⟨refillTokens rps burst (b.getD ⟨burst, now⟩) now, now⟩, false,
          (1 - refillTokens rps burst (b.getD ⟨burst, now⟩) now) / rps)) := by
  have hcap : refillTokens rps burst (b.getD ⟨burst, now⟩) now ≤ burst :=
    min_le_left _ _
  refine ⟨hcap, ?_, ?_, ?_⟩
  · unfold allow
    dsimp only
    by_cases h1 : 1 ≤ refillTokens rps burst (b.getD ⟨burst, now⟩) now
    · rw [if_pos h1]
      show refillTokens rps burst (b.getD ⟨burst, now⟩) now - 1 ≤ burst
      have h0 : (0 : ℚ) ≤ 1 := by norm_num
      calc refillTokens rps burst (b.getD ⟨burst, now⟩) now - 1
          ≤ refillTokens rps burst (b.getD ⟨burst, now⟩) now :=
            sub_le_self _ h0
        _ ≤ burst := hcap
    · rw [if_neg h1]
      exact hcap
  · intro h1
    unfold allow
    dsimp only
    rw [if_pos h1]
  · intro h1
    unfold allow
    dsimp only
    rw [if_neg (not_le.mpr h1)]

theorem c5_witness :
    (1 : ℚ) ≤ refillTokens 2 5 ((none : Option Bucket).getD ⟨5, 0⟩) 0 ∧
      allow 2 5 none 0 =
        (⟨refillTokens 2 5 ((none : Option Bucket).getD ⟨5, 0⟩) 0 - 1, 0⟩,
          true, 0) :=
  ⟨by simp [refillTokens], (c5_token_bucket 2 5 none 0).2.2.1
    (by simp [refillTokens])⟩

/-- C6 counterexample: the update and list routes are NOT admitted
through the "admin" rate-limit category — `WithRateLimit` sends them to
the default limiter. -/
theorem c6_counterexample :
    rateCategoryFor updateRoutePath = RateCategory.deflt ∧
    rateCategoryFor listRoutePath = RateCategory.deflt ∧
    RateCategory.deflt ≠ RateCategory.admin := by
  refine ⟨by decide, by decide, by decide⟩

/-- C6 amended: every request is admitted through exactly one of three
categories — validate and heartbeat through "fast", issue and revoke
through "admin", and every other request (including update and list)
through "default". -/
theorem c6_rate_categories (path : String) :
    (rateCategoryFor path = RateCategory.fast ↔
      (path = "/api/v1/licenses/validate" ∨
        path = "/api/v1/licenses/heartbeat")) ∧
    (rateCategoryFor path = RateCategory.admin ↔
      (path = "/api/v1/licenses/issue" ∨
        path = "/api/v1/licenses/revoke")) ∧
    (rateCategoryFor path = RateCategory.deflt ↔
      (¬(path = "/api/v1/licenses/validate" ∨
          path = "/api/v1/licenses/heartbeat") ∧
        ¬(path = "/api/v1/licenses/issue" ∨
          path = "/api/v1/licenses/revoke"))) := by
  unfold rateCategoryFor
  by_cases h1 : path = "/api/v1/licenses/validate" ∨
      path = "/api/v1/licenses/heartbeat"
  · rw [if_pos h1]
    refine ⟨⟨fun _ => h1, fun _ => rfl⟩, ?_, ?_⟩
    · constructor
      · intro hc
        exact RateCategory.noConfusion hc
      · intro h2
        exfalso
        rcases h1 with rfl | rfl <;> rcases h2 with h2 | h2 <;>
          exact absurd h2 (by decide)
    · constructor
      · intro hc
        exact RateCategory.noConfusion hc
      · rintro ⟨hn1, -⟩
        exact absurd h1 hn1
  · rw [if_neg h1]
    by_cases h2 : path = "/api/v1/licenses/issue" ∨
        path = "/api/v1/licenses/revoke"
    · rw [if_pos h2]
      refine ⟨?_, ⟨fun _ => h2, fun _ => rfl⟩, ?_⟩
      · constructor
        · intro hc
          exact RateCategory.noConfusion hc
        · intro hh
          exact absurd hh h1
      · constructor
        · intro hc
          exact RateCategory.noConfusion hc
        · rintro ⟨-, hn2⟩
          exact absurd h2 hn2
    · rw [if_neg h2]
      refine ⟨?_, ?_, ⟨fun _ => ⟨h1, h2⟩, fun _ => rfl⟩⟩
      · constructor
        · intro hc
          exact RateCategory.noConfusion hc
        · intro hh
          exact absurd hh h1
      · constructor
        · intro hc
          exact RateCategory.noConfusion hc
        · intro hh
          exact absurd hh h2

/-- C7: on a well-formed issuance request, a failed repository insert
aborts the handler with the `issue.insert` internal failure and the
signer is never invoked; conversely, whenever the signer runs, the
insert has already succeeded. -/
theorem c7_persist_before_sign :
    (∀ (req : IssueRequest) (licenseKey : String) (deps : IssueDeps)
        (e : String),
        req.customer ≠ "" → req.machineID ≠ "" → req.expiresAt ≠ 0 →
        deps.insertResult = .error e →
        issueLicense req licenseKey deps =
          (.internalFailure "issue.insert", true, false)) ∧
    (∀ (req : IssueRequest) (licenseKey : String) (deps : IssueDeps),
        (issueLicense req licenseKey deps).2.2 = true →
        deps.insertResult = .ok ()) := by
  constructor
  · intro req licenseKey deps e h1 h2 h3 hins
    unfold issueLicense
    rw [if_neg (by rintro (h | h | h) <;> contradiction)]
    rw [hins]
  · intro req licenseKey deps h
    cases hins : deps.insertResult with
    | ok u =>
      cases u
      rfl
    | error e =>
      exfalso
      unfold issueLicense at h
      split at h
      · exact Bool.noConfusion h
      · rw [hins] at h
        exact Bool.noConfusion h

theorem c7_witness :
    ("Acme" : String) ≠ "" ∧ ("MID1" : String) ≠ "" ∧ (1 : Nat) ≠ 0 ∧
      (IssueDeps.mk (.error "db down") (.ok "priv")
          (fun _ => .ok "sig")).insertResult = .error "db down" ∧
      issueLicense ⟨"Acme", "MID1", 1⟩ "key-1"
          ⟨.error "db down", .ok "priv", fun _ => .ok "sig"⟩ =
        (.internalFailure "issue.insert", true, false) :=
  ⟨by decide, by decide, by decide, rfl,
    c7_persist_before_sign.1 ⟨"Acme", "MID1", 1⟩ "key-1"
      ⟨.error "db down", .ok "priv", fun _ => .ok "sig"⟩ "db down"
      (by decide) (by decide) (by decide) rfl⟩

/-- C8: for a well-formed validation request, an unknown license and
every business-rule failure come back as 200 states of the fixed
response shape, never as errors; the handler errors only on a
repository fault or an unparseable stored expiry. -/
theorem c8_validate_total (req : ValidateRequest)
    (lookup : Except String (Option StoredRecord)) (now : Nat)
    (hk : req.licenseKey ≠ "") (hm : req.machineID ≠ "") :
    (lookup = .ok none →
      validateHandler req lookup now =
        .ok 200 ⟨false, false, none, some "unknown license"⟩) ∧
    (∀ rec expires, lookup = .ok (some rec) →
      storedExpiryVal rec.expiresAt = some expires →
      validateHandler req lookup now =
        .ok 200 (validateDecision rec.machineID rec.revoked expires
          req.machineID now)) ∧
    (∀ code msg, validateHandler req lookup now = .httpError code msg →
      (∃ e, lookup = .error e) ∨
        (∃ rec, lookup = .ok (some rec) ∧
          storedExpiryVal rec.expiresAt = none)) := by
  have hcv : ¬(req.licenseKey = "" ∨ req.machineID = "") := by
    rintro (h | h) <;> contradiction
  unfold validateHandler
  rw [if_neg hcv]
  refine ⟨?_, ?_, ?_⟩
  · intro hl
    rw [hl]
    rfl
  · intro rec expires hl hexp
    rw [hl]
    unfold validateLicense
    dsimp only
    rw [hexp]
  · intro code msg h
    cases lookup with
    | error e => exact Or.inl ⟨e, rfl⟩
    | ok orec =>
      cases orec with
      | none => exact HandlerResult.noConfusion h
      | some rec =>
        cases hexp : storedExpiryVal rec.expiresAt with
        | none => exact Or.inr ⟨rec, rfl, hexp⟩
        | some expires =>
          exfalso
          unfold validateLicense at h
          dsimp only at h
          rw [hexp] at h
          exact HandlerResult.noConfusion h

theorem c8_witness :
    ("k" : String) ≠ "" ∧ ("m" : String) ≠ "" ∧
      validateHandler ⟨"k", "m"⟩ (.ok none) 0 =
        .ok 200 ⟨false, false, none, some "unknown license"⟩ :=
  ⟨by decide, by decide,
    (c8_validate_total ⟨"k", "m"⟩ (.ok none) 0 (by decide) (by decide)).1 rfl⟩

/-- C9: the caller-visible part of an operational-error response is the
fixed `500 internal server error` regardless of the underlying error
value — two runs differing only in the internal error produce identical
responses — while the error text flows only to the server-side log
line; the same holds for the validate handler's repository-fault path
and the issue handler's failure rendering. -/
theorem c9_generic_internal_error (op e1 e2 reqMachine : String)
    (now : Nat) :
    (internalError op e1).response = (internalError op e2).response ∧
    (internalError op e1).response = ⟨500, "internal server error"⟩ ∧
    (internalError op e1).logLine =
      "handler error op=" ++ op ++ " err=" ++ e1 ∧
    validateLicense (.error e1) reqMachine now =
      validateLicense (.error e2) reqMachine now ∧
    (∀ opname : String,
      renderIssueOutcome (.internalFailure opname) =
        ⟨500, "internal server error"⟩) :=
  ⟨rfl, rfl, rfl, rfl, fun _ => rfl⟩

/-- C10 counterexample: a body of 70010 bytes — beyond the 64 KiB
limit — consisting of a small well-formed first JSON value and trailing
data is rejected as `400 bad json` by `decodeJSON`'s trailing-data
check, not with the distinct 413 outcome the claim requires for every
over-limit body. -/
theorem c10_counterexample :
    maxJSONBody <
        (JsonBody.mk 10 true 70000).valueLen +
          (JsonBody.mk 10 true 70000).trailingLen ∧
      decodeJSON ⟨10, true, 70000⟩ = .badJSON ∧
      issueHandler ⟨10, true, 70000⟩ ⟨"Acme", "MID1", 1⟩ "key-1"
          ⟨.ok (), .ok "priv", fun _ => .ok "sig"⟩ =
        (⟨400, "bad json"⟩, false, false) ∧
      (⟨400, "bad json"⟩ : HttpResponse) ≠ ⟨413, "request body too large"⟩ :=
  ⟨by decide, by decide, rfl, by decide⟩

/-- C10 amended: a request body whose first JSON value needs more than
64 KiB is rejected 413 "request body too large"; a body whose first
value fits the limit but is malformed, or is followed by trailing data,
is rejected 400 "bad json"; in every decode-failure case the handler
returns before the repository insert or the signer can run. -/
theorem c10_body_limits (body : JsonBody) (req : IssueRequest)
    (licenseKey : String) (deps : IssueDeps) :
    (maxJSONBody < body.valueLen →
      issueHandler body req licenseKey deps =
        (⟨413, "request body too large"⟩, false, false)) ∧
    (body.valueLen ≤ maxJSONBody → body.valueWellFormed = false →
      issueHandler body req licenseKey deps =
        (⟨400, "bad json"⟩, false, false)) ∧
    (body.valueLen ≤ maxJSONBody → body.valueWellFormed = true →
      0 < body.trailingLen →
      issueHandler body req licenseKey deps =
        (⟨400, "bad json"⟩, false, false)) ∧
    (decodeJSON body ≠ .ok →
      (issueHandler body req licenseKey deps).2.1 = false ∧
      (issueHandler body req licenseKey deps).2.2 = false) := by
  refine ⟨?_, ?_, ?_, ?_⟩
  · intro h
    have hd : decodeJSON body = .tooLarge := by
      unfold decodeJSON
      rw [if_pos h]
    unfold issueHandler
    rw [hd]
  · intro h1 h2
    have hd : decodeJSON body = .badJSON := by
      unfold decodeJSON
      rw [if_neg (not_lt.mpr h1), if_pos h2]
    unfold issueHandler
    rw [hd]
  · intro h1 h2 h3
    have hd : decodeJSON body = .badJSON := by
      unfold decodeJSON
      rw [if_neg (not_lt.mpr h1), if_neg (by simp [h2]), if_pos h3]
    unfold issueHandler
    rw [hd]
  · intro hne
    cases hd : decodeJSON body with
    | ok => exact absurd hd hne
    | tooLarge =>
      unfold issueHandler
      rw [hd]
      exact ⟨rfl, rfl⟩
    | badJSON =>
      unfold issueHandler
      rw [hd]
      exact ⟨rfl, rfl⟩

theorem c10_witness :
    maxJSONBody < (70000 : Nat) ∧
      issueHandler ⟨70000, true, 0⟩ ⟨"Acme", "MID1", 1⟩ "key-1"
          ⟨.ok (), .ok "priv", fun _ => .ok "sig"⟩ =
        (⟨413, "request body too large"⟩, false, false) :=
  ⟨by decide,
    (c10_body_limits ⟨70000, true, 0⟩ ⟨"Acme", "MID1", 1⟩ "key-1"
        ⟨.ok (), .ok "priv", fun _ => .ok "sig"⟩).1 (by decide)⟩

end Raalisence
